import Mathlib

/-!
Verification of the AI-Boardroom discussion orchestration engine.

This file gives a shallow embedding, in Lean 4, of the core of the
`ai-boardroom` repository: the persona registry (`backend/app/personas.py`),
the discussion orchestrator (`backend/app/debate.py`), the resilient
completion client (`backend/app/openrouter.py`) and the persistence layer
(`backend/app/database.py`).  Pure Python functions become Lean functions;
stateful methods become explicit state-passing functions; Python exceptions
become `Except` values.  The theorems at the end of the file settle the
specification claims against these definitions.
-/

namespace AIBoardroom

/-! ## Rendering of Python integers

`start_discussion` builds discussion ids with an f-string
`f"discussion_{int(time.time())}_{len(self.discussions) + 1}"`, and message
timestamps with `str(len(...) + 1)`.  `pyIntStr` embeds Python's decimal
rendering of a non-negative `int`.  It is written with a fuel parameter so
that it is structurally recursive (and hence reduces inside the kernel);
`pyIntCharsAux_fuel_irrelevant` shows the fuel does not matter as long as it
is large enough. -/

/-- The decimal digit character for `n < 10` (codepoints 48-57). -/
def decDigit (n : Nat) : Char := Char.ofNat (48 + n)

/-- Decimal digit list of `n`, most significant digit first; `fuel` bounds the
recursion depth and any `fuel > n` is enough. -/
def pyIntCharsAux : Nat → Nat → List Char
  | 0, _ => []
  | f + 1, n =>
    if n < 10 then [decDigit n]
    else pyIntCharsAux f (n / 10) ++ [decDigit (n % 10)]

/-- Decimal digit list of a natural number, as Python's `str(n)` renders it. -/
def pyIntChars (n : Nat) : List Char := pyIntCharsAux (n + 1) n

/-- Python's `str(n)` / f-string rendering of a non-negative integer. -/
def pyIntStr (n : Nat) : String := String.mk (pyIntChars n)

example : pyIntStr 0 = "0" := rfl
example : pyIntStr 7 = "7" := rfl
example : pyIntStr 100 = "100" := rfl
example : pyIntStr 1234 = "1234" := rfl

theorem pyIntCharsAux_fuel_irrelevant :
    ∀ f f' n, n < f → n < f' → pyIntCharsAux f n = pyIntCharsAux f' n := by
  intro f
  induction f with
  | zero => intro f' n h; omega
  | succ f ih =>
    intro f' n hf hf'
    cases f' with
    | zero => omega
    | succ f' =>
      by_cases h10 : n < 10
      · simp [pyIntCharsAux, h10]
      · have hdiv : n / 10 < n := Nat.div_lt_self (by omega) (by omega)
        simp only [pyIntCharsAux, if_neg h10]
        rw [ih f' (n / 10) (by omega) (by omega)]

/-- One step of the fuelled recursion. -/
theorem pyIntChars_step (f n : Nat) :
    pyIntCharsAux (f + 1) n =
      if n < 10 then [decDigit n] else pyIntCharsAux f (n / 10) ++ [decDigit (n % 10)] :=
  rfl

/-- The defining recursion of `pyIntChars`, with the fuel abstracted away. -/
theorem pyIntChars_unfold (n : Nat) :
    pyIntChars n =
      if n < 10 then [decDigit n] else pyIntChars (n / 10) ++ [decDigit (n % 10)] := by
  by_cases h10 : n < 10
  · simp [pyIntChars, pyIntChars_step, h10]
  · have hdiv : n / 10 < n := Nat.div_lt_self (by omega) (by omega)
    have h1 : pyIntChars n = pyIntCharsAux n (n / 10) ++ [decDigit (n % 10)] := by
      simp only [pyIntChars, pyIntChars_step, if_neg h10]
    rw [h1, if_neg h10,
      pyIntCharsAux_fuel_irrelevant n (n / 10 + 1) (n / 10) (by omega) (by omega)]
    rfl

theorem pyIntChars_ne_nil (n : Nat) : pyIntChars n ≠ [] := by
  rw [pyIntChars_unfold]
  by_cases h10 : n < 10 <;> simp [h10]

theorem decDigit_ne_underscore : ∀ k, k < 10 → decDigit k ≠ '_' := by decide

theorem pyIntChars_no_underscore (n : Nat) : ∀ c ∈ pyIntChars n, c ≠ '_' := by
  induction n using Nat.strong_induction_on with
  | _ n ih =>
    rw [pyIntChars_unfold]
    by_cases h10 : n < 10
    · simp only [if_pos h10, List.mem_singleton]
      rintro c rfl
      exact decDigit_ne_underscore n h10
    · simp only [if_neg h10, List.mem_append, List.mem_singleton]
      rintro c (hc | rfl)
      · exact ih (n / 10) (Nat.div_lt_self (by omega) (by omega)) c hc
      · exact decDigit_ne_underscore (n % 10) (Nat.mod_lt _ (by omega))

theorem decDigit_injOn : ∀ m, m < 10 → ∀ n, n < 10 → decDigit m = decDigit n → m = n := by
  decide

theorem pyIntChars_injective : ∀ m n, pyIntChars m = pyIntChars n → m = n := by
  intro m
  induction m using Nat.strong_induction_on with
  | _ m ih =>
    intro n h
    rw [pyIntChars_unfold m, pyIntChars_unfold n] at h
    by_cases hm : m < 10 <;> by_cases hn : n < 10
    · simp only [if_pos hm, if_pos hn, List.cons.injEq] at h
      exact decDigit_injOn m hm n hn h.1
    · rw [if_pos hm, if_neg hn] at h
      have hlen := congrArg List.length h
      rw [List.length_append, List.length_singleton, List.length_singleton] at hlen
      exact absurd (List.length_eq_zero.mp (by omega)) (pyIntChars_ne_nil (n / 10))
    · rw [if_neg hm, if_pos hn] at h
      have hlen := congrArg List.length h
      rw [List.length_append, List.length_singleton, List.length_singleton] at hlen
      exact absurd (List.length_eq_zero.mp (by omega)) (pyIntChars_ne_nil (m / 10))
    · rw [if_neg hm, if_neg hn] at h
      obtain ⟨h1, h2⟩ := List.append_inj' h (by simp)
      have hdig : m % 10 = n % 10 :=
        decDigit_injOn _ (Nat.mod_lt _ (by omega)) _ (Nat.mod_lt _ (by omega))
          (by simpa using h2)
      have hquot : m / 10 = n / 10 :=
        ih (m / 10) (Nat.div_lt_self (by omega) (by omega)) _ h1
      omega

theorem pyIntStr_injective : ∀ m n, pyIntStr m = pyIntStr n → m = n := by
  intro m n h
  exact pyIntChars_injective m n (congrArg String.data h)

/-- Splitting two equal character lists at a separator that occurs in neither
left part. -/
theorem sep_split : ∀ (xs ys as bs : List Char), (∀ c ∈ xs, c ≠ '_') →
    (∀ c ∈ ys, c ≠ '_') → xs ++ '_' :: as = ys ++ '_' :: bs → xs = ys ∧ as = bs := by
  intro xs
  induction xs with
  | nil =>
    intro ys as bs _ hys h
    cases ys with
    | nil => simpa using h
    | cons y ys' =>
      simp only [List.nil_append, List.cons_append, List.cons.injEq] at h
      exact absurd h.1.symm (hys y (by simp))
  | cons x xs' ih =>
    intro ys as bs hxs hys h
    cases ys with
    | nil =>
      simp only [List.cons_append, List.nil_append, List.cons.injEq] at h
      exact absurd h.1 (hxs x (by simp))
    | cons y ys' =>
      simp only [List.cons_append, List.cons.injEq] at h
      obtain ⟨hxy, hrest⟩ := h
      obtain ⟨h1, h2⟩ := ih ys' as bs (fun c hc => hxs c (by simp [hc]))
        (fun c hc => hys c (by simp [hc])) hrest
      exact ⟨by simp [hxy, h1], h2⟩

/-- The discussion id generated by `start_discussion`:
`f"discussion_{int(time.time())}_{len(self.discussions) + 1}"`. -/
def mkDiscussionId (t n : Nat) : String :=
  "discussion_" ++ pyIntStr t ++ "_" ++ pyIntStr n

theorem mkDiscussionId_data (t n : Nat) :
    (mkDiscussionId t n).data =
      "discussion_".data ++ (pyIntChars t ++ '_' :: pyIntChars n) := by
  simp [mkDiscussionId, pyIntStr, String.data_append]

/-- Two generated discussion ids agree exactly when both the timestamp and the
counter agree. -/
theorem mkDiscussionId_inj {t n t' n' : Nat}
    (h : mkDiscussionId t n = mkDiscussionId t' n') : t = t' ∧ n = n' := by
  have hd := congrArg String.data h
  rw [mkDiscussionId_data, mkDiscussionId_data] at hd
  have hsplit := sep_split (pyIntChars t) (pyIntChars t') (pyIntChars n) (pyIntChars n')
    (pyIntChars_no_underscore t) (pyIntChars_no_underscore t')
    (List.append_cancel_left hd)
  exact ⟨pyIntChars_injective _ _ hsplit.1, pyIntChars_injective _ _ hsplit.2⟩

/-! ## Persona registry (`backend/app/personas.py`)

`Persona` is a plain Python `@dataclass` (with `eq=True` and `frozen=False`,
the defaults); such a dataclass has `__hash__` set to `None` and its
instances are unhashable.  This matters for `_select_next_persona_by_expertise`
below, which uses a `Persona` as a dictionary key. -/

structure Persona where
  name : String
  model : String
  role : String
  personality : String
  expertise : String
deriving DecidableEq, Repr

/-- The default CEO persona. -/
def alexandraStone : Persona :=
  { name := "Alexandra Stone"
  , model := "openai/gpt-4"
  , role := "CEO"
  , personality := "Strategic visionary with strong leadership skills. Focuses on big-picture thinking, company vision, and stakeholder value. Decisive but collaborative in decision-making."
  , expertise := "Business strategy, leadership, market analysis, financial oversight, stakeholder management" }

/-- The default CTO persona. -/
def marcusChen : Persona :=
  { name := "Marcus Chen"
  , model := "anthropic/claude-3-sonnet"
  , role := "CTO"
  , personality := "Technical innovator with a pragmatic approach. Balances cutting-edge technology with practical implementation. Detail-oriented and risk-aware."
  , expertise := "Software architecture, technology trends, system scalability, cybersecurity, technical team management" }

/-- The default CMO persona. -/
def sofiaRodriguez : Persona :=
  { name := "Sofia Rodriguez"
  , model := "google/gemini-pro"
  , role := "CMO"
  , personality := "Creative strategist with deep market insights. Data-driven yet intuitive about customer behavior. Enthusiastic about brand building and customer engagement."
  , expertise := "Marketing strategy, brand management, customer acquisition, digital marketing, market research" }

/-- `PersonaManager._create_default_personas`. -/
def createDefaultPersonas : List Persona :=
  [alexandraStone, marcusChen, sofiaRodriguez]

/-- Python's `str.lower` on the ASCII strings used throughout this repository:
character-wise ASCII case folding (`Char.toLower` maps exactly `'A'..'Z'` to
`'a'..'z'`). -/
def pyLower (s : String) : String := String.mk (s.data.map Char.toLower)

example : pyLower "CEO" = "ceo" := rfl
example : pyLower "Ceo" = "ceo" := rfl

/-- `PersonaManager.get_persona_by_role`: iterate over the registry and return
the first persona whose lower-cased role equals the lower-cased query. -/
def getPersonaByRole (personas : List Persona) (role : String) : Option Persona :=
  match personas with
  | [] => none
  | p :: rest =>
    if pyLower p.role == pyLower role then some p else getPersonaByRole rest role

/-! ## Discussion state (`backend/app/debate.py`) -/

/-- The `DiscussionPhase` enum. -/
inductive DiscussionPhase where
  | opening
  | debate
  | synthesis
deriving DecidableEq, Repr

/-- The `.value` string tag of a phase. -/
def DiscussionPhase.value : DiscussionPhase → String
  | .opening => "opening"
  | .debate => "debate"
  | .synthesis => "synthesis"

/-- The `Message` dataclass.  `timestamp` is the string the code stores there
(`str(len(messages) + 1)`, i.e. the 1-based turn number). -/
structure Message where
  persona : String
  role : String
  content : String
  timestamp : String
  phase : String
deriving DecidableEq, Repr

/-- The per-discussion dictionary built by `start_discussion` (and mutated by
`get_next_response` / `_advance_turn`).  `phaseLimits` is the enum-keyed
`phase_limits` dictionary, embedded as an association list. -/
structure Discussion where
  id : String
  topic : String
  personas : List Persona
  messages : List Message
  currentTurn : Nat
  currentPhase : DiscussionPhase
  phaseTurns : Nat
  phaseLimits : List (DiscussionPhase × Nat)
  turnOrder : List String
deriving DecidableEq, Repr

/-- Dictionary lookup `discussion["phase_limits"][current_phase]`.  Every state
constructed by the code carries all three keys, so the `0` default of the
embedding is never exercised (Python would raise `KeyError` instead). -/
def phaseLimitOf (limits : List (DiscussionPhase × Nat)) (ph : DiscussionPhase) : Nat :=
  match limits.find? (fun e => e.1 == ph) with
  | some e => e.2
  | none => 0

/-- The fresh discussion dictionary allocated by `start_discussion` for a given
generated id. -/
def newDiscussion (id topic : String) (personas : List Persona) : Discussion :=
  { id := id
  , topic := topic
  , personas := personas
  , messages := []
  , currentTurn := 0
  , currentPhase := .opening
  , phaseTurns := 0
  , phaseLimits := [(.opening, 2), (.debate, 4), (.synthesis, 2)]
  , turnOrder := personas.map (fun p => p.role) }

/-- `DiscussionManager._advance_turn`: bump the turn counters, then, if the
incremented `phase_turns` has reached the current phase's limit, move
`OPENING → DEBATE → SYNTHESIS` (no move out of `SYNTHESIS`) and reset
`phase_turns` to `0`.  Note the reset happens in the `SYNTHESIS` case too. -/
def advanceTurn (d : Discussion) : Discussion :=
  let d' := { d with currentTurn := d.currentTurn + 1, phaseTurns := d.phaseTurns + 1 }
  let limit := phaseLimitOf d'.phaseLimits d'.currentPhase
  if d'.phaseTurns ≥ limit then
    let nextPhase :=
      match d'.currentPhase with
      | .opening => DiscussionPhase.debate
      | .debate => DiscussionPhase.synthesis
      | .synthesis => DiscussionPhase.synthesis
    { d' with currentPhase := nextPhase, phaseTurns := 0 }
  else d'

/-- `DiscussionManager._select_next_persona_by_expertise`.  With no messages it
returns the persona whose role is exactly `"CEO"`, else the first persona
(`IndexError` when there are none).  With at least one message the scoring loop
executes `persona_scores[persona] = score`, which raises
`TypeError: unhashable type: 'Persona'` because `Persona` is a non-frozen
`@dataclass` with `eq=True` and hence `__hash__ is None`; with an empty persona
list the loop body never runs and `max({})` raises `ValueError`. -/
def selectNextPersonaByExpertise (d : Discussion) : Except String Persona :=
  if d.messages.isEmpty then
    match d.personas.find? (fun p => p.role == "CEO") with
    | some p => .ok p
    | none =>
      match d.personas with
      | p :: _ => .ok p
      | [] => .error "IndexError: list index out of range"
  else
    match d.personas with
    | [] => .error "ValueError: max() arg is an empty sequence"
    | _ :: _ => .error "TypeError: unhashable type: 'Persona'"

/-- `DiscussionManager._get_current_persona`: expertise-based selection during
`DEBATE`, round robin over `turn_order` otherwise (Python raises
`ZeroDivisionError` on `current_turn % 0` for an empty turn order). -/
def getCurrentPersona (d : Discussion) : Except String Persona :=
  if d.currentPhase == .debate then
    selectNextPersonaByExpertise d
  else
    match d.turnOrder with
    | [] => .error "ZeroDivisionError: integer modulo by zero"
    | _ :: _ =>
      let currentRole := d.turnOrder.getD (d.currentTurn % d.turnOrder.length) ""
      match d.personas.find? (fun p => p.role == currentRole) with
      | some p => .ok p
      | none =>
        match d.personas with
        | p :: _ => .ok p
        | [] => .error "IndexError: list index out of range"

/-- The result dictionary returned by `get_next_response`: either the success
payload or the error payload built in the `except` branch. -/
inductive AdvanceResult where
  | success (persona role content : String) (turn : Nat) (phase : String)
  | failure (error persona role : String)
deriving DecidableEq, Repr

/-- `DiscussionManager.get_next_response`, for an already-resolved discussion.
The completion call is abstracted by its outcome: `.ok content` when
`chat_completion` returns a usable body, `.error e` when it raises.  On
success the message is appended and `_advance_turn` runs; on completion
failure nothing is mutated and the error dictionary names the selected
persona.  A `.error` return models an exception escaping `get_next_response`
(the persona selection happens before the `try` block). -/
def getNextResponse (d : Discussion) (completion : Except String String) :
    Except String (Discussion × AdvanceResult) :=
  match getCurrentPersona d with
  | .error e => .error e
  | .ok p =>
    match completion with
    | .error e =>
      .ok (d, .failure ("Failed to get response from " ++ p.name ++ ": " ++ e) p.name p.role)
    | .ok content =>
      let msg : Message :=
        { persona := p.name
        , role := p.role
        , content := content
        , timestamp := pyIntStr (d.messages.length + 1)
        , phase := d.currentPhase.value }
      let d1 := { d with messages := d.messages ++ [msg] }
      let d2 := advanceTurn d1
      .ok (d2, .success p.name p.role content d1.messages.length d.currentPhase.value)

/-- Run `get_next_response` once per element of `outcomes` (each element is the
outcome the completion client would produce for that call), returning the
final discussion state and the number of successful advances.  Calls that
raise or return the error dictionary leave the state exactly as
`get_next_response` leaves it. -/
def runAdvances (d : Discussion) : List (Except String String) → Discussion × Nat
  | [] => (d, 0)
  | o :: os =>
    match getNextResponse d o with
    | .ok (d', .success _ _ _ _ _) =>
      let r := runAdvances d' os
      (r.1, r.2 + 1)
    | .ok (d', .failure _ _ _) => runAdvances d' os
    | .error _ => runAdvances d os

/-! ## Manager-level state

`DiscussionManager.discussions` is a Python dict keyed by the discussion id.
Python dicts preserve insertion order; updating an existing key keeps its
position, inserting a new key appends.  The embedding is an association list
with exactly that insert semantics. -/

/-- `discussion_id in self.discussions`. -/
def dictMember (m : List (String × Discussion)) (k : String) : Bool :=
  (m.find? (fun e => e.1 == k)).isSome

/-- `self.discussions[k] = v` (update in place if present, else append). -/
def dictInsert (m : List (String × Discussion)) (k : String) (v : Discussion) :
    List (String × Discussion) :=
  if dictMember m k then m.map (fun e => if e.1 == k then (k, v) else e)
  else m ++ [(k, v)]

/-- `del self.discussions[k]`. -/
def dictErase (m : List (String × Discussion)) (k : String) :
    List (String × Discussion) :=
  m.filter (fun e => e.1 != k)

/-- `self.discussions.get(k)`. -/
def dictFind (m : List (String × Discussion)) (k : String) : Option Discussion :=
  (m.find? (fun e => e.1 == k)).map (fun e => e.2)

/-- `DiscussionManager.start_discussion`: generate the id from the current
whole-second time and `len(self.discussions) + 1`, store the fresh discussion
under it, and return the id (the best-effort database save does not affect the
returned id or the in-memory state). -/
def startDiscussion (m : List (String × Discussion)) (timeNow : Nat)
    (topic : String) (personas : List Persona) : String × List (String × Discussion) :=
  let id := mkDiscussionId timeNow (m.length + 1)
  (id, dictInsert m id (newDiscussion id topic personas))

/-- Resolution prefix shared by `get_next_response` and
`get_discussion_messages`: use the memory-resident discussion when present,
else try to rehydrate through the persistence gateway (abstracted as the
function `dbLoad`, `none` when the gateway is absent or has no row). -/
def resolveDiscussion (m : List (String × Discussion))
    (dbLoad : String → Option Discussion) (id : String) : Option Discussion :=
  match dictFind m id with
  | some d => some d
  | none => dbLoad id

/-- The `raise ValueError(f"Discussion {discussion_id} not found")` path of
`get_next_response`: resolve the discussion or surface NotFound. -/
def resolveForAdvance (m : List (String × Discussion))
    (dbLoad : String → Option Discussion) (id : String) : Except String Discussion :=
  match resolveDiscussion m dbLoad id with
  | some d => .ok d
  | none => .error ("Discussion " ++ id ++ " not found")

/-- The per-message dictionary returned by `get_discussion_messages`. -/
structure MessageView where
  persona : String
  role : String
  content : String
  turn : String
  phase : String
deriving DecidableEq, Repr

/-- `DiscussionManager.get_discussion_messages`: returns `[]` when the id is
neither memory-resident nor rehydratable, else the message dictionaries. -/
def getDiscussionMessages (m : List (String × Discussion))
    (dbLoad : String → Option Discussion) (id : String) : List MessageView :=
  match resolveDiscussion m dbLoad id with
  | none => []
  | some d =>
    d.messages.map (fun msg =>
      { persona := msg.persona
      , role := msg.role
      , content := msg.content
      , turn := msg.timestamp
      , phase := msg.phase })

/-- One caller-visible operation on a `DiscussionManager`.  `start` fixes the
topic and personas (they do not influence id generation); `advance` carries
the completion outcome its `chat_completion` call would produce. -/
inductive BoardOp where
  | start (time : Nat)
  | advance (id : String) (completion : Except String String)
  | delete (id : String)

/-- Run a sequence of operations against the in-memory discussion store
(no persistence gateway), returning the final store and the ids returned by
the `start` calls, in order.  A failed `advance` (unknown id, selection
failure, or completion failure) leaves the store unchanged, exactly as in
`get_next_response`. -/
def runOps (m : List (String × Discussion)) : List BoardOp →
    List (String × Discussion) × List String
  | [] => (m, [])
  | .start t :: ops =>
    let s := startDiscussion m t "topic" createDefaultPersonas
    let r := runOps s.2 ops
    (r.1, s.1 :: r.2)
  | .advance id c :: ops =>
    let m' :=
      match dictFind m id with
      | some d =>
        match getNextResponse d c with
        | .ok (d', _) => dictInsert m id d'
        | .error _ => m
      | none => m
    runOps m' ops
  | .delete id :: ops => runOps (dictErase m id) ops

/-! ## The persistence layer (`backend/app/database.py`)

`save_discussion` serializes `phase_limits` with
`json.dumps(discussion_data.get('phase_limits', {}))`.  The keys of that
dictionary are `DiscussionPhase` enum members, and `json.dumps` raises
`TypeError: keys must be str, int, float, bool or None` for any dictionary
key that is none of those types; only the empty dictionary serializes (to
`"\x7b\x7d"`).  `save_discussion` catches only `sqlite3.Error`, so the
`TypeError` propagates to the caller. -/

/-- Python's `json.dumps` applied to the enum-keyed phase-limit dictionary. -/
def jsonDumpsPhaseLimits (limits : List (DiscussionPhase × Nat)) : Except String String :=
  match limits with
  | [] => .ok "\x7b\x7d"
  | _ => .error "TypeError: keys must be str, int, float, bool or None, not DiscussionPhase"

/-- One row of the `discussions` table.  `turnOrder` and `personas` stand for
the JSON text of the corresponding columns (their `json.dumps` calls succeed
and are injective on the data the code stores). -/
structure DiscussionRow where
  id : String
  topic : String
  currentTurn : Nat
  currentPhase : String
  phaseTurns : Nat
  phaseLimits : String
  turnOrder : List String
  personas : List Persona
deriving DecidableEq, Repr

/-- `DatabaseManager.save_discussion`: serialize the fields (the
`phase_limits` dump runs first and is the one that can raise), convert the
phase enum to its string tag, and upsert the row keyed by the discussion id.
The `Except.error` case is the uncaught `TypeError` escaping the method. -/
def saveDiscussion (table : List DiscussionRow) (d : Discussion) :
    Except String (List DiscussionRow × Bool) := do
  let phaseLimitsJson ← jsonDumpsPhaseLimits d.phaseLimits
  let row : DiscussionRow :=
    { id := d.id
    , topic := d.topic
    , currentTurn := d.currentTurn
    , currentPhase := d.currentPhase.value
    , phaseTurns := d.phaseTurns
    , phaseLimits := phaseLimitsJson
    , turnOrder := d.turnOrder
    , personas := d.personas }
  if (table.find? (fun r => r.id == d.id)).isSome then
    .ok (table.map (fun r => if r.id == d.id then row else r), true)
  else
    .ok (table ++ [row], true)

/-! ## The completion client (`backend/app/openrouter.py`)

An HTTP attempt is abstracted by its outcome: a successful (2xx) response
body, an `httpx.HTTPStatusError` with its status code and response text, or a
transport-level `httpx.RequestError`.  The rate-limit sleep and the backoff
sleeps have no effect on the values computed and are not modelled. -/

inductive AttemptOutcome where
  | success (body : String)
  | httpStatus (code : Nat) (text : String)
  | requestError (msg : String)
deriving DecidableEq, Repr

/-- The exceptions `_make_request_with_retry` can raise:
`clientError` is `"OpenRouter API client error: {status} - {text}"` (4xx other
than 429, raised immediately), `exhausted` is
`"OpenRouter API error after {max_retries + 1} attempts: {status} - {text}"`,
and `requestFailed` is
`"OpenRouter request failed after {max_retries + 1} attempts: {msg}"`. -/
inductive ReqError where
  | clientError (code : Nat) (text : String)
  | exhausted (code : Nat) (text : String)
  | requestFailed (msg : String)
deriving DecidableEq, Repr

/-- The `for attempt in range(max_retries + 1)` loop of
`_make_request_with_retry`, with `i` the index of the current attempt and
`r + 1` the number of loop iterations still available (`r = 0` exactly when
`attempt == max_retries`).  Returns the result together with the number of
attempts performed.  The fuel-0 case is unreachable: the loop always starts
with `max_retries + 1 ≥ 1` iterations available. -/
def retryGo (attempts : Nat → AttemptOutcome) : Nat → Nat → Except ReqError String × Nat
  | _, 0 => (.error (.requestFailed "unreachable: empty attempt range"), 0)
  | i, r + 1 =>
    match attempts i with
    | .success body => (.ok body, 1)
    | .httpStatus code text =>
      if 400 ≤ code ∧ code < 500 ∧ code ≠ 429 then (.error (.clientError code text), 1)
      else if r = 0 then (.error (.exhausted code text), 1)
      else
        let rest := retryGo attempts (i + 1) r
        (rest.1, rest.2 + 1)
    | .requestError msg =>
      if r = 0 then (.error (.requestFailed msg), 1)
      else
        let rest := retryGo attempts (i + 1) r
        (rest.1, rest.2 + 1)

/-- `OpenRouterClient._make_request_with_retry` (the method hardcodes
`max_retries = 3`; the parameter makes the configured budget explicit).
Returns the response body or the raised exception, with the attempt count. -/
def makeRequestWithRetry (attempts : Nat → AttemptOutcome) (maxRetries : Nat) :
    Except ReqError String × Nat :=
  retryGo attempts 0 (maxRetries + 1)

/-- The class-level `MODEL_FALLBACKS` hierarchy. -/
def MODEL_FALLBACKS : List (String × List String) :=
  [ ("openai/gpt-4", ["openai/gpt-4-turbo", "openai/gpt-3.5-turbo"])
  , ("anthropic/claude-3-sonnet", ["anthropic/claude-3-haiku", "openai/gpt-3.5-turbo"])
  , ("google/gemini-pro", ["openai/gpt-3.5-turbo", "anthropic/claude-3-haiku"]) ]

/-- The `_ai_boardroom_metadata` dictionary attached to a successful chat
completion. -/
structure CompletionMeta where
  requestedModel : String
  actualModel : String
  usedFallback : Bool
deriving DecidableEq, Repr

/-- Outcome of `chat_completion`: the returned content plus metadata, or the
final `"Chat completion failed with all attempted models (...)"` exception
carrying the last per-model error and the full ordered list of models that
were attempted. -/
inductive ChatResult where
  | ok (content : String) (meta : CompletionMeta)
  | allFailed (lastError : ReqError) (attemptedModels : List String)
deriving DecidableEq, Repr

/-- The `for attempt_model in models_to_try` loop of `chat_completion`.
On success it returns the content and the answering model; on failure it
records the error and, mirroring `if attempt_model == models_to_try[-1]:
break`, stops when the failing model's id *equals* the last id of the list
(a comparison by value, not by position).  Also returns the trace of
`(model, attempts made)` pairs in the order the models were tried.  The `[]`
case is unreachable (`models_to_try` always contains the primary model). -/
def tryModelsGo (attempts : String → Nat → AttemptOutcome) (maxRetries : Nat)
    (lastModel : String) : List String → Except ReqError (String × String) × List (String × Nat)
  | [] => (.error (.requestFailed "unreachable: no models to try"), [])
  | m :: rest =>
    let r := makeRequestWithRetry (attempts m) maxRetries
    match r.1 with
    | .ok content => (.ok (content, m), [(m, r.2)])
    | .error e =>
      if m == lastModel then (.error e, [(m, r.2)])
      else
        match rest with
        | [] => (.error e, [(m, r.2)])
        | _ :: _ =>
          let next := tryModelsGo attempts maxRetries lastModel rest
          (next.1, (m, r.2) :: next.2)

/-- The fallback ids appended to `models_to_try`:
`self.MODEL_FALLBACKS[model]` when `use_fallback` holds and the model has an
entry, else nothing. -/
def fallbackChain (fallbacks : List (String × List String)) (model : String)
    (useFallback : Bool) : List String :=
  if useFallback then
    match fallbacks.find? (fun e => e.1 == model) with
    | some e => e.2
    | none => []
  else []

/-- `OpenRouterClient.chat_completion`: build `models_to_try` from the primary
model and (when `use_fallback` holds and the model has configured fallbacks)
its fallback chain, try them in order, and either return the first success
with its metadata or fail with the last error and the attempted models. -/
def chatCompletion (attempts : String → Nat → AttemptOutcome)
    (fallbacks : List (String × List String)) (model : String) (useFallback : Bool)
    (maxRetries : Nat) : ChatResult × List (String × Nat) :=
  let chain : List String := fallbackChain fallbacks model useFallback
  let modelsToTry := model :: chain
  let lastModel := chain.getLastD model
  match tryModelsGo attempts maxRetries lastModel modelsToTry with
  | (.ok (content, m), trace) =>
    (.ok content { requestedModel := model, actualModel := m, usedFallback := m != model }, trace)
  | (.error e, trace) => (.allFailed e modelsToTry, trace)

/-! ## Phase-machine lemmas -/

/-- The phase transition of `_advance_turn` (no transition out of SYNTHESIS). -/
def nextPhase : DiscussionPhase → DiscussionPhase
  | .opening => .debate
  | .debate => .synthesis
  | .synthesis => .synthesis

theorem advanceTurn_stay (d : Discussion)
    (h : d.phaseTurns + 1 < phaseLimitOf d.phaseLimits d.currentPhase) :
    advanceTurn d =
      { d with currentTurn := d.currentTurn + 1, phaseTurns := d.phaseTurns + 1 } := by
  obtain ⟨i, tp, ps, ms, ct, ph, pt, pl, tord⟩ := d
  simp only [advanceTurn] at *
  rw [if_neg (by omega)]

theorem advanceTurn_move (d : Discussion)
    (h : phaseLimitOf d.phaseLimits d.currentPhase ≤ d.phaseTurns + 1) :
    advanceTurn d =
      { d with currentTurn := d.currentTurn + 1
             , currentPhase := nextPhase d.currentPhase
             , phaseTurns := 0 } := by
  obtain ⟨i, tp, ps, ms, ct, ph, pt, pl, tord⟩ := d
  simp only [advanceTurn, nextPhase] at *
  rw [if_pos (by omega)]

theorem advanceTurn_currentTurn (d : Discussion) :
    (advanceTurn d).currentTurn = d.currentTurn + 1 := by
  obtain ⟨i, tp, ps, ms, ct, ph, pt, pl, tord⟩ := d
  simp only [advanceTurn]
  split <;> rfl

theorem advanceTurn_messages (d : Discussion) :
    (advanceTurn d).messages = d.messages := by
  obtain ⟨i, tp, ps, ms, ct, ph, pt, pl, tord⟩ := d
  simp only [advanceTurn]
  split <;> rfl

theorem advanceTurn_synthesis (d : Discussion)
    (h : d.currentPhase = .synthesis) : (advanceTurn d).currentPhase = .synthesis := by
  obtain ⟨i, tp, ps, ms, ct, ph, pt, pl, tord⟩ := d
  simp only at h
  subst h
  simp only [advanceTurn]
  split <;> rfl

theorem advanceTurn_iterate_within (d : Discussion) :
    ∀ k, d.phaseTurns + k < phaseLimitOf d.phaseLimits d.currentPhase →
      advanceTurn^[k] d =
        { d with currentTurn := d.currentTurn + k, phaseTurns := d.phaseTurns + k } := by
  intro k
  induction k with
  | zero =>
    intro _
    obtain ⟨i, tp, ps, ms, ct, ph, pt, pl, tord⟩ := d
    rfl
  | succ k ih =>
    intro h
    rw [Function.iterate_succ_apply', ih (by omega), advanceTurn_stay _ (by simpa using h)]
    obtain ⟨i, tp, ps, ms, ct, ph, pt, pl, tord⟩ := d
    rfl

/-- Starting a phase with `phase_turns = 0` and a positive limit `lim`, exactly
`lim` advances complete the phase: the phase moves one step forward and the
counter is reset to `0` (also in SYNTHESIS, where the "move" is the identity). -/
theorem advanceTurn_iterate_segment (d : Discussion) (lim : Nat)
    (hpt : d.phaseTurns = 0) (hlim : phaseLimitOf d.phaseLimits d.currentPhase = lim)
    (hpos : 0 < lim) :
    advanceTurn^[lim] d =
      { d with currentTurn := d.currentTurn + lim
             , currentPhase := nextPhase d.currentPhase
             , phaseTurns := 0 } := by
  obtain ⟨lim, rfl⟩ : ∃ l, lim = l + 1 := ⟨lim - 1, by omega⟩
  rw [Function.iterate_succ_apply',
    advanceTurn_iterate_within d lim (by omega),
    advanceTurn_move _ (by simp [hpt, hlim]; try omega)]
  obtain ⟨i, tp, ps, ms, ct, ph, pt, pl, tord⟩ := d
  simp only at hpt
  subst hpt
  rfl

theorem phaseLimitOf_opening (a b c : Nat) :
    phaseLimitOf [(.opening, a), (.debate, b), (.synthesis, c)] .opening = a := rfl

theorem phaseLimitOf_debate (a b c : Nat) :
    phaseLimitOf [(.opening, a), (.debate, b), (.synthesis, c)] .debate = b := rfl

theorem phaseLimitOf_synthesis (a b c : Nat) :
    phaseLimitOf [(.opening, a), (.debate, b), (.synthesis, c)] .synthesis = c := rfl

/-- A concrete freshly started discussion (the exact dictionary
`start_discussion` stores for the spec's example topic, at time
1700000000 with an empty store). -/
def sampleDiscussion : Discussion :=
  newDiscussion (mkDiscussionId 1700000000 1) "Should we hire more developers?"
    createDefaultPersonas

/-! ## Claim C1 — phase schedule -/

/-- C1 counterexample.  On the real freshly started discussion (default limits
OPENING 2 / DEBATE 4 / SYNTHESIS 2), after `2 + 4 + 2` advances the phase is
SYNTHESIS but `phase_turns` is `0`, not `c = 2`: reaching the SYNTHESIS limit
resets the counter (while leaving the phase unchanged).  This falsifies the
claimed `phase_turn_count = c`. -/
theorem c1_counterexample :
    (advanceTurn^[2 + 4 + 2] sampleDiscussion).currentPhase = DiscussionPhase.synthesis ∧
    (advanceTurn^[2 + 4 + 2] sampleDiscussion).phaseTurns = 0 ∧
    ¬ (advanceTurn^[2 + 4 + 2] sampleDiscussion).phaseTurns = 2 := by
  refine ⟨rfl, rfl, ?_⟩
  decide

/-- C1 (amended): for every phase configuration `a/b/c` with positive limits,
after exactly `a + b + c` advances from a fresh state the discussion is in
SYNTHESIS with `phase_turn_count = 0` (the counter is reset on reaching the
SYNTHESIS limit; the claim said it would equal `c`), and one further advance
still leaves `current_phase` at SYNTHESIS. -/
theorem c1_amended_phase_schedule (d : Discussion) (a b c : Nat)
    (ha : 0 < a) (hb : 0 < b) (hc : 0 < c)
    (hph : d.currentPhase = .opening) (hpt : d.phaseTurns = 0)
    (hlim : d.phaseLimits = [(.opening, a), (.debate, b), (.synthesis, c)]) :
    (advanceTurn^[a + b + c] d).currentPhase = DiscussionPhase.synthesis ∧
    (advanceTurn^[a + b + c] d).phaseTurns = 0 ∧
    (advanceTurn^[a + b + c + 1] d).currentPhase = DiscussionPhase.synthesis := by
  have hsplit : a + b + c = c + (b + a) := by omega
  have hA : advanceTurn^[a] d =
      { d with currentTurn := d.currentTurn + a
             , currentPhase := nextPhase d.currentPhase
             , phaseTurns := 0 } :=
    advanceTurn_iterate_segment d a hpt (by rw [hlim, hph]; exact phaseLimitOf_opening a b c) ha
  have hB : advanceTurn^[b + a] d =
      { d with currentTurn := d.currentTurn + a + b
             , currentPhase := DiscussionPhase.synthesis
             , phaseTurns := 0 } := by
    rw [Function.iterate_add_apply, hA]
    have := advanceTurn_iterate_segment
      { d with currentTurn := d.currentTurn + a
             , currentPhase := nextPhase d.currentPhase
             , phaseTurns := 0 } b
      (by simp) (by simp [hlim, hph, nextPhase]; exact phaseLimitOf_debate a b c) hb
    rw [this]
    simp [hph, nextPhase]
  have hC : advanceTurn^[a + b + c] d =
      { d with currentTurn := d.currentTurn + a + b + c
             , currentPhase := DiscussionPhase.synthesis
             , phaseTurns := 0 } := by
    rw [hsplit, Function.iterate_add_apply, hB]
    have := advanceTurn_iterate_segment
      { d with currentTurn := d.currentTurn + a + b
             , currentPhase := DiscussionPhase.synthesis
             , phaseTurns := 0 } c
      (by simp) (by simp [hlim]; exact phaseLimitOf_synthesis a b c) hc
    rw [this]
    simp [nextPhase]
  refine ⟨by rw [hC], by rw [hC], ?_⟩
  have : a + b + c + 1 = 1 + (a + b + c) := by omega
  rw [this, Function.iterate_add_apply, hC]
  exact advanceTurn_synthesis _ rfl

/-- Witness for `c1_amended_phase_schedule` at the concrete fresh discussion
with the default 2/4/2 limits. -/
theorem c1_amended_phase_schedule_witness :
    (advanceTurn^[2 + 4 + 2] sampleDiscussion).currentPhase = DiscussionPhase.synthesis ∧
    (advanceTurn^[2 + 4 + 2] sampleDiscussion).phaseTurns = 0 ∧
    (advanceTurn^[2 + 4 + 2 + 1] sampleDiscussion).currentPhase = DiscussionPhase.synthesis :=
  c1_amended_phase_schedule sampleDiscussion 2 4 2 (by decide) (by decide) (by decide)
    rfl rfl rfl

/-! ## Claims C3 and C4 — turn/message bookkeeping and atomicity -/

theorem getNextResponse_failure_state (d : Discussion) (o : Except String String)
    (d' : Discussion) (e' pn pr : String)
    (h : getNextResponse d o = .ok (d', .failure e' pn pr)) : d' = d := by
  rcases hgc : getCurrentPersona d with e | p
  · simp only [getNextResponse, hgc] at h
    exact absurd h (by simp)
  · rcases o with e | content
    · simp only [getNextResponse, hgc] at h
      simp only [Except.ok.injEq, Prod.mk.injEq] at h
      exact h.1.symm
    · simp only [getNextResponse, hgc] at h
      simp at h

theorem getNextResponse_success_state (d : Discussion) (o : Except String String)
    (d' : Discussion) (a b cs : String) (t : Nat) (ph : String)
    (h : getNextResponse d o = .ok (d', .success a b cs t ph)) :
    d'.currentTurn = d.currentTurn + 1 ∧ d'.messages.length = d.messages.length + 1 := by
  rcases hgc : getCurrentPersona d with e | p
  · simp only [getNextResponse, hgc] at h
    exact absurd h (by simp)
  · rcases o with e | content
    · simp only [getNextResponse, hgc] at h
      simp at h
    · simp only [getNextResponse, hgc] at h
      simp only [Except.ok.injEq, Prod.mk.injEq] at h
      rw [← h.1, advanceTurn_currentTurn, advanceTurn_messages]
      simp

theorem runAdvances_counts : ∀ (os : List (Except String String)) (d : Discussion),
    (runAdvances d os).1.currentTurn = d.currentTurn + (runAdvances d os).2 ∧
    (runAdvances d os).1.messages.length = d.messages.length + (runAdvances d os).2 := by
  intro os
  induction os with
  | nil => intro d; simp [runAdvances]
  | cons o os ih =>
    intro d
    rcases hg : getNextResponse d o with e | ⟨d', res⟩
    · simpa [runAdvances, hg] using ih d
    · rcases res with ⟨a, b, cs, t, ph⟩ | ⟨e', pn, pr⟩
      · obtain ⟨hct, hms⟩ := getNextResponse_success_state d o d' a b cs t ph hg
        have := ih d'
        simp only [runAdvances, hg]
        omega
      · have hdd : d' = d := getNextResponse_failure_state d o d' e' pn pr hg
        subst hdd
        simpa [runAdvances, hg] using ih d'

/-- C3: starting from a freshly created discussion, running any sequence of
`get_next_response` calls (each abstracted by its completion outcome, so the
sequence freely mixes successes, completion failures and raised exceptions)
leaves `current_turn` equal to the number of successful advances, which also
equals the number of stored messages. -/
theorem c3_current_turn_counts_messages (topic : String) (personas : List Persona)
    (t n : Nat) (os : List (Except String String)) :
    (runAdvances (newDiscussion (mkDiscussionId t n) topic personas) os).1.currentTurn
        = (runAdvances (newDiscussion (mkDiscussionId t n) topic personas) os).2 ∧
    (runAdvances (newDiscussion (mkDiscussionId t n) topic personas) os).1.messages.length
        = (runAdvances (newDiscussion (mkDiscussionId t n) topic personas) os).2 := by
  have h := runAdvances_counts os (newDiscussion (mkDiscussionId t n) topic personas)
  simpa [newDiscussion] using h

/-- C4: when the completion client raises, `get_next_response` returns the
error dictionary naming the selected persona and the state component of the
result is literally the input state — neither `current_turn`, `phase_turns`,
`current_phase` nor `messages` changed, so an immediate retry reselects the
same persona at the same phase position (selection is a pure function of the
unchanged state, hypothesis `hp`). -/
theorem c4_completion_failure_is_atomic (d : Discussion) (p : Persona) (e : String)
    (hp : getCurrentPersona d = .ok p) :
    getNextResponse d (.error e) =
      .ok (d, .failure ("Failed to get response from " ++ p.name ++ ": " ++ e)
        p.name p.role) := by
  simp only [getNextResponse, hp]

/-- Witness for `c4_completion_failure_is_atomic` on the concrete fresh
discussion: the CEO is selected, the call fails, state is returned unchanged. -/
theorem c4_completion_failure_is_atomic_witness :
    getCurrentPersona sampleDiscussion = .ok alexandraStone ∧
    getNextResponse sampleDiscussion (.error "boom") =
      .ok (sampleDiscussion,
        .failure "Failed to get response from Alexandra Stone: boom"
          "Alexandra Stone" "CEO") :=
  ⟨rfl, c4_completion_failure_is_atomic sampleDiscussion alexandraStone "boom" rfl⟩

/-! ## Claim C5 — retry budget -/

/-- C5: with the configured `max_retries = 3`, a request whose every attempt
fails with remote status 500 performs exactly 4 attempts and raises the
terminal failure carrying the last observed status and detail, while a request
whose first attempt fails with status 404 performs exactly 1 attempt and
fails immediately with the response detail. -/
theorem c5_retry_budget (att500 att404 : Nat → AttemptOutcome) (t u : String)
    (h500 : ∀ i, att500 i = .httpStatus 500 t)
    (h404 : att404 0 = .httpStatus 404 u) :
    makeRequestWithRetry att500 3 = (.error (.exhausted 500 t), 4) ∧
    makeRequestWithRetry att404 3 = (.error (.clientError 404 u), 1) := by
  constructor
  · simp [makeRequestWithRetry, retryGo, h500]
  · simp [makeRequestWithRetry, retryGo, h404]

/-- Witness for `c5_retry_budget` with concrete deterministic attempt
functions. -/
theorem c5_retry_budget_witness :
    makeRequestWithRetry (fun _ => .httpStatus 500 "Internal Server Error") 3 =
      (.error (.exhausted 500 "Internal Server Error"), 4) ∧
    makeRequestWithRetry (fun _ => .httpStatus 404 "Not Found") 3 =
      (.error (.clientError 404 "Not Found"), 1) :=
  c5_retry_budget (fun _ => .httpStatus 500 "Internal Server Error")
    (fun _ => .httpStatus 404 "Not Found") "Internal Server Error" "Not Found"
    (fun _ => rfl) rfl

/-! ## Claim C10 — case-insensitive role lookup -/

set_option maxRecDepth 8192 in
/-- C10: `get_persona_by_role` returns the first persona whose role matches
the query up to (ASCII) case folding — it equals `List.find?` with the
lower-cased comparison — it returns `none` exactly when no persona matches
case-insensitively, and on the default registry `"ceo"`, `"CEO"` and `"Ceo"`
all resolve to the same (CEO) persona. -/
theorem c10_role_lookup_case_insensitive :
    (∀ (personas : List Persona) (role : String),
      getPersonaByRole personas role
          = personas.find? (fun p => pyLower p.role == pyLower role) ∧
      (getPersonaByRole personas role = none ↔
        ∀ p ∈ personas, pyLower p.role ≠ pyLower role)) ∧
    getPersonaByRole createDefaultPersonas "ceo" = some alexandraStone ∧
    getPersonaByRole createDefaultPersonas "CEO" = some alexandraStone ∧
    getPersonaByRole createDefaultPersonas "Ceo" = some alexandraStone := by
  have hfind : ∀ (personas : List Persona) (role : String),
      getPersonaByRole personas role
        = personas.find? (fun p => pyLower p.role == pyLower role) := by
    intro personas role
    induction personas with
    | nil => rfl
    | cons p rest ih =>
      by_cases h : pyLower p.role == pyLower role <;>
        simp [getPersonaByRole, List.find?_cons, h, ih]
  refine ⟨fun personas role => ⟨hfind personas role, ?_⟩, by decide, by decide, by decide⟩
  rw [hfind, List.find?_eq_none]
  simp

/-! ## Claim C8 — unknown discussion ids -/

/-- C8 counterexample.  For an id that is neither memory-resident nor
reconstructible from the persistence gateway, `get_next_response` does raise
the NotFound `ValueError`, but `get_discussion_messages` returns the empty
list — an empty result, not a surfaced error — falsifying the claim that both
operations surface NotFound. -/
theorem c8_counterexample :
    getDiscussionMessages [] (fun _ => none) "missing" = [] ∧
    resolveForAdvance [] (fun _ => none) "missing" =
      .error "Discussion missing not found" :=
  ⟨rfl, rfl⟩

/-- C8 (amended): for every id that is neither memory-resident nor
reconstructible from the gateway, `advance` surfaces the NotFound error, while
`get_discussion_messages` succeeds with the empty list (the claim said it too
would surface NotFound). -/
theorem c8_amended_unknown_id (m : List (String × Discussion))
    (dbLoad : String → Option Discussion) (id : String)
    (hmem : dictFind m id = none) (hdb : dbLoad id = none) :
    resolveForAdvance m dbLoad id = .error ("Discussion " ++ id ++ " not found") ∧
    getDiscussionMessages m dbLoad id = [] := by
  constructor
  · simp [resolveForAdvance, resolveDiscussion, hmem, hdb]
  · simp [getDiscussionMessages, resolveDiscussion, hmem, hdb]

/-- Witness for `c8_amended_unknown_id` on an empty store with no gateway. -/
theorem c8_amended_unknown_id_witness :
    resolveForAdvance [] (fun _ => none) "missing" =
      .error "Discussion missing not found" ∧
    getDiscussionMessages [] (fun _ => none) "missing" = [] :=
  c8_amended_unknown_id [] (fun _ => none) "missing" rfl rfl

/-! ## Claim C2 — persistence round-trip -/

/-- C2 (the code bug): `save_discussion` never persists any real discussion.
Serializing the enum-keyed `phase_limits` dictionary with `json.dumps` raises
`TypeError` (its keys are `DiscussionPhase` members, not strings), and
`save_discussion` catches only `sqlite3.Error`, so the exception escapes and
no row is written; the claimed round-trip can therefore never even begin.
This holds for every discussion whose phase-limit dictionary is non-empty —
in particular for every discussion `start_discussion` creates. -/
theorem c2_save_discussion_raises (table : List DiscussionRow) (d : Discussion)
    (h : d.phaseLimits ≠ []) :
    saveDiscussion table d =
      .error "TypeError: keys must be str, int, float, bool or None, not DiscussionPhase" := by
  rcases hpl : d.phaseLimits with _ | ⟨e, rest⟩
  · exact absurd hpl h
  · simp only [saveDiscussion, hpl]
    rfl

/-- Witness for `c2_save_discussion_raises` on the concrete fresh
discussion. -/
theorem c2_save_discussion_raises_witness :
    sampleDiscussion.phaseLimits ≠ [] ∧
    saveDiscussion [] sampleDiscussion =
      .error "TypeError: keys must be str, int, float, bool or None, not DiscussionPhase" :=
  ⟨by decide, c2_save_discussion_raises [] sampleDiscussion (by decide)⟩

/-! ## Claim C7 — DEBATE-phase persona selection -/

/-- A concrete discussion sitting in the DEBATE phase with one message. -/
def sampleDebateDiscussion : Discussion :=
  { sampleDiscussion with
      currentPhase := .debate
    , currentTurn := 1
    , phaseTurns := 0
    , messages :=
        [ { persona := "Alexandra Stone"
          , role := "CEO"
          , content := "We need a growth strategy for our software business."
          , timestamp := "1"
          , phase := "opening" } ] }

/-- C7 (the code bug): whenever the discussion has at least one message and at
least one persona, `_select_next_persona_by_expertise` raises
`TypeError: unhashable type: 'Persona'` at `persona_scores[persona] = score`
(a non-frozen `@dataclass` with `eq=True` has `__hash__ is None`), so the
claimed expertise scoring never selects anybody. -/
theorem c7_debate_selection_raises (d : Discussion)
    (hmsg : d.messages ≠ []) (hps : d.personas ≠ []) :
    selectNextPersonaByExpertise d = .error "TypeError: unhashable type: 'Persona'" := by
  unfold selectNextPersonaByExpertise
  rw [if_neg (by simpa using hmsg)]
  rcases h : d.personas with _ | ⟨p, rest⟩
  · exact absurd h hps
  · rfl

/-- Witness for `c7_debate_selection_raises` on a concrete DEBATE-phase
discussion with one message and the default personas. -/
theorem c7_debate_selection_raises_witness :
    sampleDebateDiscussion.messages ≠ [] ∧ sampleDebateDiscussion.personas ≠ [] ∧
    selectNextPersonaByExpertise sampleDebateDiscussion =
      .error "TypeError: unhashable type: 'Persona'" :=
  ⟨by decide, by decide,
    c7_debate_selection_raises sampleDebateDiscussion (by decide) (by decide)⟩

/-! ## Claim C6 — model fallback -/

theorem tryModelsGo_head_success (attempts : String → Nat → AttemptOutcome)
    (mr : Nat) (lastM m : String) (rest : List String) (content : String)
    (hok : (makeRequestWithRetry (attempts m) mr).1 = .ok content) :
    tryModelsGo attempts mr lastM (m :: rest) =
      (.ok (content, m), [(m, (makeRequestWithRetry (attempts m) mr).2)]) := by
  simp [tryModelsGo, hok]

theorem tryModelsGo_last_fail (attempts : String → Nat → AttemptOutcome)
    (mr : Nat) (lastM : String) (e : ReqError)
    (he : (makeRequestWithRetry (attempts lastM) mr).1 = .error e) :
    tryModelsGo attempts mr lastM [lastM] =
      (.error e, [(lastM, (makeRequestWithRetry (attempts lastM) mr).2)]) := by
  simp [tryModelsGo, he]

theorem tryModelsGo_cons_fail (attempts : String → Nat → AttemptOutcome)
    (mr : Nat) (lastM x : String) (rest : List String) (e : ReqError)
    (hrest : rest ≠ [])
    (he : (makeRequestWithRetry (attempts x) mr).1 = .error e)
    (hne : x ≠ lastM) :
    tryModelsGo attempts mr lastM (x :: rest) =
      ((tryModelsGo attempts mr lastM rest).1,
        (x, (makeRequestWithRetry (attempts x) mr).2) ::
          (tryModelsGo attempts mr lastM rest).2) := by
  rcases rest with _ | ⟨y, rest'⟩
  · exact absurd rfl hrest
  · simp [tryModelsGo, he, hne]

/-- Models before the first success all fail (and none of them is the
value-compared last model), so they are all tried in order, each recorded with
its attempt count, and the first success wins. -/
theorem tryModelsGo_first_success (attempts : String → Nat → AttemptOutcome)
    (mr : Nat) (lastM : String) :
    ∀ (pre : List String) (m : String) (post : List String) (content : String),
      (∀ x ∈ pre, ∃ e, (makeRequestWithRetry (attempts x) mr).1 = .error e) →
      (∀ x ∈ pre, x ≠ lastM) →
      (makeRequestWithRetry (attempts m) mr).1 = .ok content →
      tryModelsGo attempts mr lastM (pre ++ m :: post) =
        (.ok (content, m),
          pre.map (fun x => (x, (makeRequestWithRetry (attempts x) mr).2))
            ++ [(m, (makeRequestWithRetry (attempts m) mr).2)]) := by
  intro pre
  induction pre with
  | nil =>
    intro m post content _ _ hok
    simpa using tryModelsGo_head_success attempts mr lastM m post content hok
  | cons x pre' ih =>
    intro m post content hfail hne hok
    obtain ⟨e, he⟩ := hfail x (by simp)
    rw [List.cons_append,
      tryModelsGo_cons_fail attempts mr lastM x (pre' ++ m :: post) e (by simp) he
        (hne x (by simp)),
      ih m post content (fun y hy => hfail y (by simp [hy]))
        (fun y hy => hne y (by simp [hy])) hok]
    simp

/-- When every model fails, the loop walks the whole list, stops at the last
model, and reports that model's error. -/
theorem tryModelsGo_all_fail (attempts : String → Nat → AttemptOutcome)
    (mr : Nat) (lastM : String) (e : ReqError) :
    ∀ (pre : List String),
      (∀ x ∈ pre, ∃ er, (makeRequestWithRetry (attempts x) mr).1 = .error er) →
      (∀ x ∈ pre, x ≠ lastM) →
      (makeRequestWithRetry (attempts lastM) mr).1 = .error e →
      tryModelsGo attempts mr lastM (pre ++ [lastM]) =
        (.error e,
          (pre ++ [lastM]).map
            (fun x => (x, (makeRequestWithRetry (attempts x) mr).2))) := by
  intro pre
  induction pre with
  | nil =>
    intro _ _ he
    simpa using tryModelsGo_last_fail attempts mr lastM e he
  | cons x pre' ih =>
    intro hfail hne he
    obtain ⟨er, her⟩ := hfail x (by simp)
    rw [List.cons_append,
      tryModelsGo_cons_fail attempts mr lastM x (pre' ++ [lastM]) er (by simp) her
        (hne x (by simp)),
      ih (fun y hy => hfail y (by simp [hy])) (fun y hy => hne y (by simp [hy])) he]
    simp

theorem getLastD_default_irrelevant : ∀ (l : List String) (d d' : String), l ≠ [] →
    l.getLastD d = l.getLastD d' := by
  intro l d d' h
  rcases l with _ | ⟨x, l'⟩
  · exact absurd rfl h
  · rfl

theorem getLastD_append_right : ∀ (l₁ l₂ : List String) (d : String), l₂ ≠ [] →
    (l₁ ++ l₂).getLastD d = l₂.getLastD d := by
  intro l₁
  induction l₁ with
  | nil => intro l₂ d _; rfl
  | cons x l₁ ih =>
    intro l₂ d h
    rw [List.cons_append, List.getLastD_cons, ih l₂ x h,
      getLastD_default_irrelevant l₂ x d h]

theorem getLastD_mem : ∀ (l : List String) (d : String), l ≠ [] → l.getLastD d ∈ l := by
  intro l
  induction l with
  | nil => intro d h; exact absurd rfl h
  | cons x l' ih =>
    intro d _
    rcases l' with _ | ⟨y, l''⟩
    · show x ∈ [x]
      simp
    · rw [List.getLastD_cons]
      exact List.mem_cons_of_mem x (ih x (by simp))

theorem getLast_eq_getLastD : ∀ (l : List String) (h : l ≠ []) (d : String),
    l.getLast h = l.getLastD d := by
  intro l
  induction l with
  | nil => intro h; exact absurd rfl h
  | cons x l' ih =>
    intro h d
    rcases l' with _ | ⟨y, l''⟩
    · rfl
    · rw [List.getLastD_cons, List.getLast_cons (by simp : (y :: l'') ≠ [])]
      exact ih (by simp) x

/-- C6: with `use_fallback` enabled, writing the try-list
`model :: fallbackChain …` (no duplicate ids, as in every configured chain) as
`pre ++ m :: post` where everything in `pre` fails its full retry call and `m`
succeeds: the client returns `m`'s content, reports `used_fallback` exactly
when `m` differs from the requested model, names `m` as `actual_model`, and
the trace shows every model of `pre` (with its own retry attempts) tried
before `m`, in order.  And when every model of the try-list fails, the call
fails terminally with the last model's error and the full ordered list of
attempted models. -/
theorem c6_model_fallback (attempts : String → Nat → AttemptOutcome)
    (fallbacks : List (String × List String)) (model : String) (useFb : Bool)
    (mr : Nat) :
    (∀ (pre : List String) (m : String) (post : List String) (content : String),
      model :: fallbackChain fallbacks model useFb = pre ++ m :: post →
      (model :: fallbackChain fallbacks model useFb).Nodup →
      (∀ x ∈ pre, ∃ e, (makeRequestWithRetry (attempts x) mr).1 = .error e) →
      (makeRequestWithRetry (attempts m) mr).1 = .ok content →
      chatCompletion attempts fallbacks model useFb mr =
        (.ok content
          { requestedModel := model, actualModel := m, usedFallback := m != model },
          pre.map (fun x => (x, (makeRequestWithRetry (attempts x) mr).2))
            ++ [(m, (makeRequestWithRetry (attempts m) mr).2)])) ∧
    (∀ (e : ReqError),
      (model :: fallbackChain fallbacks model useFb).Nodup →
      (∀ x ∈ model :: fallbackChain fallbacks model useFb,
        ∃ er, (makeRequestWithRetry (attempts x) mr).1 = .error er) →
      (makeRequestWithRetry
          (attempts ((fallbackChain fallbacks model useFb).getLastD model)) mr).1
        = .error e →
      chatCompletion attempts fallbacks model useFb mr =
        (.allFailed e (model :: fallbackChain fallbacks model useFb),
          (model :: fallbackChain fallbacks model useFb).map
            (fun x => (x, (makeRequestWithRetry (attempts x) mr).2)))) := by
  set chain := fallbackChain fallbacks model useFb with hchain
  set mtt := model :: chain with hmtt
  set lastM := chain.getLastD model with hlastM
  have hmtt_ne : mtt ≠ [] := by simp [hmtt]
  have hlast_mtt : ∀ d, mtt.getLastD d = lastM := by
    intro d
    rw [hmtt, List.getLastD_cons, hlastM]
  constructor
  · intro pre m post content hsplit hnd hfail hok
    have hlast_in : lastM ∈ m :: post := by
      have h1 : mtt.getLastD model = (m :: post).getLastD model := by
        rw [hsplit]
        exact getLastD_append_right pre (m :: post) model (by simp)
      rw [hlast_mtt model] at h1
      rw [h1]
      exact getLastD_mem (m :: post) model (by simp)
    have hne : ∀ x ∈ pre, x ≠ lastM := by
      intro x hx
      rw [hsplit] at hnd
      have hdisj := (List.nodup_append.mp hnd).2.2
      intro hcontra
      exact hdisj hx (hcontra ▸ hlast_in)
    have := tryModelsGo_first_success attempts mr lastM pre m post content hfail hne hok
    simp only [chatCompletion, ← hchain, ← hlastM, ← hmtt]
    rw [hsplit, this]
  · intro e hnd hfail he
    have hgl : mtt.getLast hmtt_ne = lastM :=
      (getLast_eq_getLastD mtt hmtt_ne model).trans (hlast_mtt model)
    have hdecomp : mtt.dropLast ++ [lastM] = mtt := by
      rw [← hgl]
      exact List.dropLast_append_getLast hmtt_ne
    have hne : ∀ x ∈ mtt.dropLast, x ≠ lastM := by
      intro x hx
      have hnd' : (mtt.dropLast ++ [lastM]).Nodup := by rw [hdecomp]; exact hnd
      have hdisj := (List.nodup_append.mp hnd').2.2
      intro hcontra
      exact hdisj hx (by simp [hcontra])
    have hfail' : ∀ x ∈ mtt.dropLast, ∃ er,
        (makeRequestWithRetry (attempts x) mr).1 = .error er := by
      intro x hx
      exact hfail x (by rw [← hdecomp]; exact List.mem_append_left _ hx)
    have := tryModelsGo_all_fail attempts mr lastM e mtt.dropLast hfail' hne he
    rw [hdecomp] at this
    simp only [chatCompletion, ← hchain, ← hlastM, ← hmtt]
    rw [this]

/-- Concrete attempt outcomes for the C6 witness: models `"A"` and `"B"`
always return status 500, model `"C"` succeeds. -/
def c6Attempts : String → Nat → AttemptOutcome :=
  fun m _ => if m == "C" then .success "from C" else .httpStatus 500 "boom"

/-- Concrete fallback configuration for the C6 witness. -/
def c6Fallbacks : List (String × List String) := [("A", ["B", "C"])]

/-- Witness for `c6_model_fallback`: requesting `"A"` with chain `["B","C"]`
where A and B exhaust their retries and C succeeds yields C's content with
`used_fallback = true`, `actual_model = "C"`, after 4 attempts on A and B
each; and with C also failing, the call fails terminally naming the last
error and all three models. -/
theorem c6_model_fallback_witness :
    chatCompletion c6Attempts c6Fallbacks "A" true 3 =
      (.ok "from C"
        { requestedModel := "A", actualModel := "C", usedFallback := true },
        [("A", 4), ("B", 4), ("C", 1)]) ∧
    chatCompletion (fun _ _ => .httpStatus 500 "boom") c6Fallbacks "A" true 3 =
      (.allFailed (.exhausted 500 "boom") ["A", "B", "C"],
        [("A", 4), ("B", 4), ("C", 4)]) := by
  constructor
  · have h := (c6_model_fallback c6Attempts c6Fallbacks "A" true 3).1
      ["A", "B"] "C" [] "from C" rfl (by decide)
      (fun x hx => ⟨.exhausted 500 "boom", by fin_cases hx <;> rfl⟩) rfl
    exact h.trans (by decide)
  · have h := (c6_model_fallback (fun _ _ => .httpStatus 500 "boom") c6Fallbacks
      "A" true 3).2 (.exhausted 500 "boom") (by decide)
      (fun x hx => ⟨.exhausted 500 "boom", rfl⟩) rfl
    exact h.trans (by decide)

/-! ## Claim C9 — discussion id uniqueness -/

/-- The keys of the discussion store, in insertion order. -/
def dictKeys (m : List (String × Discussion)) : List String := m.map Prod.fst

/-- Whether an operation is a delete. -/
def BoardOp.isDel : BoardOp → Bool
  | .delete _ => true
  | _ => false

theorem dictMember_iff (m : List (String × Discussion)) (k : String) :
    dictMember m k = true ↔ k ∈ dictKeys m := by
  simp only [dictMember, dictKeys, List.find?_isSome, List.mem_map, beq_iff_eq]

theorem dictFind_some_member (m : List (String × Discussion)) (k : String)
    (d : Discussion) (h : dictFind m k = some d) : dictMember m k = true := by
  simp only [dictFind] at h
  rcases hf : m.find? (fun e => e.1 == k) with _ | e
  · rw [hf] at h
    simp at h
  · simp [dictMember, hf]

theorem dictKeys_update (m : List (String × Discussion)) (k : String) (v : Discussion) :
    dictKeys (m.map (fun e => if e.1 == k then (k, v) else e)) = dictKeys m := by
  simp only [dictKeys, List.map_map]
  apply List.map_congr_left
  intro e _
  by_cases h : e.1 == k
  · have hek : e.1 = k := by simpa using h
    simp [h, hek]
  · have hek : e.1 ≠ k := by simpa using h
    simp [h, hek]

theorem dictInsert_member_keys (m : List (String × Discussion)) (k : String)
    (v : Discussion) (h : dictMember m k = true) :
    dictKeys (dictInsert m k v) = dictKeys m ∧ (dictInsert m k v).length = m.length := by
  simp only [dictInsert, if_pos h]
  exact ⟨dictKeys_update m k v, by simp⟩

theorem dictInsert_fresh (m : List (String × Discussion)) (k : String) (v : Discussion)
    (h : dictMember m k = false) : dictInsert m k v = m ++ [(k, v)] := by
  simp [dictInsert, h]

/-- The store invariant maintained by delete-free operation: keys are distinct
and every key is a generated id whose counter is at most the store size. -/
def StoreInv (m : List (String × Discussion)) : Prop :=
  (dictKeys m).Nodup ∧ ∀ k ∈ dictKeys m, ∃ t n, n ≤ m.length ∧ k = mkDiscussionId t n

theorem runOps_noDelete_spec :
    ∀ (ops : List BoardOp), (∀ op ∈ ops, op.isDel = false) →
    ∀ m, StoreInv m →
      StoreInv (runOps m ops).1 ∧
      m.length ≤ (runOps m ops).1.length ∧
      (∀ k ∈ dictKeys m, k ∈ dictKeys (runOps m ops).1) ∧
      (∀ id ∈ (runOps m ops).2,
        (∃ t n, m.length + 1 ≤ n ∧ id = mkDiscussionId t n) ∧
        id ∈ dictKeys (runOps m ops).1) ∧
      (runOps m ops).2.Nodup := by
  intro ops
  induction ops with
  | nil =>
    intro _ m hm
    exact ⟨hm, le_refl _, fun k hk => hk, by simp [runOps], by simp [runOps]⟩
  | cons op ops ih =>
    intro hnd m hm
    rcases op with t | ⟨id, c⟩ | id
    · -- start
      set newId := mkDiscussionId t (m.length + 1) with hnewId
      have hfresh : newId ∉ dictKeys m := by
        intro hmem
        obtain ⟨t', n', hle, heq⟩ := hm.2 newId hmem
        have := (mkDiscussionId_inj (hnewId ▸ heq)).2
        omega
      have hmemF : dictMember m newId = false := by
        rcases hb : dictMember m newId
        · rfl
        · exact absurd ((dictMember_iff m newId).mp hb) hfresh
      have hins : dictInsert m newId (newDiscussion newId "topic" createDefaultPersonas)
          = m ++ [(newId, newDiscussion newId "topic" createDefaultPersonas)] :=
        dictInsert_fresh m newId _ hmemF
      set m2 := m ++ [(newId, newDiscussion newId "topic" createDefaultPersonas)]
        with hm2
      have hkeys2 : dictKeys m2 = dictKeys m ++ [newId] := by
        simp [hm2, dictKeys]
      have hlen2 : m2.length = m.length + 1 := by simp [hm2]
      have hm2inv : StoreInv m2 := by
        constructor
        · rw [hkeys2]
          simp only [List.nodup_append, List.nodup_cons, List.not_mem_nil,
            not_false_iff, List.nodup_nil, and_true, true_and]
          constructor
          · exact hm.1
          · intro a ha hb
            simp only [List.mem_singleton] at hb
            exact hfresh (hb ▸ ha)
        · intro k hk
          rw [hkeys2] at hk
          rcases List.mem_append.mp hk with hk | hk
          · obtain ⟨t', n', hle, heq⟩ := hm.2 k hk
            exact ⟨t', n', by omega, heq⟩
          · simp only [List.mem_singleton] at hk
            exact ⟨t, m.length + 1, by omega, hk.trans hnewId⟩
      have hrec := ih (fun op hop => hnd op (by simp [hop])) m2 hm2inv
      obtain ⟨hS, hL, hK, hI, hN⟩ := hrec
      have hrun : runOps m (BoardOp.start t :: ops)
          = ((runOps m2 ops).1, newId :: (runOps m2 ops).2) := by
        simp only [runOps, startDiscussion]
        rw [← hnewId, hins]
      rw [hrun]
      dsimp only
      refine ⟨hS, by omega, ?_, ?_, ?_⟩
      · intro k hk
        exact hK k (by rw [hkeys2]; exact List.mem_append_left _ hk)
      · intro x hx
        rcases List.mem_cons.mp hx with rfl | hx
        · refine ⟨⟨t, m.length + 1, by omega, hnewId⟩, ?_⟩
          exact hK newId (by rw [hkeys2]; simp)
        · obtain ⟨⟨t', n', hle, heq⟩, hmem⟩ := hI x hx
          exact ⟨⟨t', n', by omega, heq⟩, hmem⟩
      · rw [List.nodup_cons]
        refine ⟨?_, hN⟩
        intro hcontra
        obtain ⟨⟨t', n', hle, heq⟩, _⟩ := hI newId hcontra
        have := (mkDiscussionId_inj (hnewId.symm.trans heq)).2
        omega
    · -- advance
      have hstep : ∀ m', dictKeys m' = dictKeys m → m'.length = m.length →
          runOps m (BoardOp.advance id c :: ops) = runOps m' ops →
          StoreInv (runOps m (BoardOp.advance id c :: ops)).1 ∧
          m.length ≤ (runOps m (BoardOp.advance id c :: ops)).1.length ∧
          (∀ k ∈ dictKeys m, k ∈ dictKeys (runOps m (BoardOp.advance id c :: ops)).1) ∧
          (∀ x ∈ (runOps m (BoardOp.advance id c :: ops)).2,
            (∃ t n, m.length + 1 ≤ n ∧ x = mkDiscussionId t n) ∧
            x ∈ dictKeys (runOps m (BoardOp.advance id c :: ops)).1) ∧
          (runOps m (BoardOp.advance id c :: ops)).2.Nodup := by
        intro m' hkeys hlen hrun
        have hm' : StoreInv m' := by
          constructor
          · rw [hkeys]; exact hm.1
          · intro k hk
            obtain ⟨t', n', hle, heq⟩ := hm.2 k (hkeys ▸ hk)
            exact ⟨t', n', by omega, heq⟩
        obtain ⟨hS, hL, hK, hI, hN⟩ := ih (fun op hop => hnd op (by simp [hop])) m' hm'
        rw [hrun]
        refine ⟨hS, by omega, ?_, ?_, hN⟩
        · intro k hk
          exact hK k (hkeys ▸ hk)
        · intro x hx
          obtain ⟨⟨t', n', hle, heq⟩, hmem⟩ := hI x hx
          exact ⟨⟨t', n', by omega, heq⟩, hmem⟩
      rcases hf : dictFind m id with _ | d
      · exact hstep m rfl rfl (by simp only [runOps, hf])
      · rcases hg : getNextResponse d c with e | ⟨d', res⟩
        · exact hstep m rfl rfl (by simp only [runOps, hf, hg])
        · have hmem : dictMember m id = true := dictFind_some_member m id d hf
          obtain ⟨hk, hl⟩ := dictInsert_member_keys m id d' hmem
          exact hstep (dictInsert m id d') hk hl (by simp only [runOps, hf, hg])
    · -- delete: excluded by hypothesis
      have := hnd (BoardOp.delete id) (by simp)
      simp [BoardOp.isDel] at this

/-- C9 counterexample: `start` at second 100, `start` again, `delete` the
first id, `start` again still within second 100 — the third `start` returns
`discussion_100_2`, the very id the second `start` already returned, so the
ids are not unique.  (The colliding insert also overwrites the second
discussion, destroying its resolvability.) -/
theorem c9_counterexample :
    (runOps [] [BoardOp.start 100, BoardOp.start 100,
        BoardOp.delete (mkDiscussionId 100 1), BoardOp.start 100]).2 =
      [mkDiscussionId 100 1, mkDiscussionId 100 2, mkDiscussionId 100 2] ∧
    ¬ (runOps [] [BoardOp.start 100, BoardOp.start 100,
        BoardOp.delete (mkDiscussionId 100 1), BoardOp.start 100]).2.Nodup := by
  constructor
  · rfl
  · decide

/-- C9 (amended): in any sequence of `start` and `advance` operations with no
deletes, every id returned by `start` is distinct from every previously
returned id, and each returned id stays resolvable in the store for the rest
of the run.  (With deletes the claim fails: see the counterexample.) -/
theorem c9_amended_id_uniqueness (ops : List BoardOp)
    (h : ∀ op ∈ ops, op.isDel = false) :
    (runOps [] ops).2.Nodup ∧
    ∀ id ∈ (runOps [] ops).2, dictMember (runOps [] ops).1 id = true := by
  have hinv : StoreInv [] := ⟨List.nodup_nil, by simp [dictKeys]⟩
  obtain ⟨_, _, _, hids, hnd⟩ := runOps_noDelete_spec ops h [] hinv
  exact ⟨hnd, fun id hid => (dictMember_iff _ _).mpr (hids id hid).2⟩

/-- Witness for `c9_amended_id_uniqueness` on a concrete delete-free
sequence. -/
theorem c9_amended_id_uniqueness_witness :
    (runOps [] [BoardOp.start 100,
        BoardOp.advance (mkDiscussionId 100 1) (.error "down"),
        BoardOp.start 100]).2.Nodup ∧
    ∀ id ∈ (runOps [] [BoardOp.start 100,
        BoardOp.advance (mkDiscussionId 100 1) (.error "down"),
        BoardOp.start 100]).2,
      dictMember (runOps [] [BoardOp.start 100,
        BoardOp.advance (mkDiscussionId 100 1) (.error "down"),
        BoardOp.start 100]).1 id = true :=
  c9_amended_id_uniqueness
    [BoardOp.start 100, BoardOp.advance (mkDiscussionId 100 1) (.error "down"),
      BoardOp.start 100]
    (by intro op hop; fin_cases hop <;> rfl)

end AIBoardroom
